import Mathlib

/-!
# contextprovider

A shallow embedding of `contextprovider.go` (package `contextprovider`) and the properties of
its registry protocol: `Provide`, `Inject`, `InjectValue`, `ContextValue`, `FreeContext`.

Package-level variables (`contextMap`, `runtimeCaller`) form an explicit `State` that is passed
through every function that touches them.  What the Go runtime supplies (`runtime.FuncForPC`,
`runtime.Caller`, `reflect`, `context`) is either a parameter (`Runtime`) or a small model that
follows the library's documented behaviour.
-/

set_option autoImplicit false

namespace contextprovider

/-! ## Values, kinds and types -/

/-- Go values that reach the package through a parameter of type `any`.
`nil` is the nil interface.  `nilFunc signature` is the nil value of the func type with that
signature and `func signature code closure` a non-nil value of it: `code` is its code pointer,
`closure` stands for its captured state.  `defined name methods v` is the value `v` converted
to a defined type `name` (as in `type userDefinedType string`) with the method set `methods`,
each method given as its name and signature. -/
inductive Value where
  | nil
  | bool (b : Bool)
  | int (n : Int)
  | int64 (n : Int)
  | string (s : String)
  | nilFunc (signature : String)
  | func (signature : String) (code : Nat) (closure : Nat)
  | defined (name : String) (methods : List String) (v : Value)
  deriving DecidableEq, Repr

/-- The part of `reflect.Kind` that the values above can have. -/
inductive Kind where
  | invalid
  | bool
  | int
  | int64
  | string
  | func
  deriving DecidableEq, Repr

/-- `reflect.Kind.String()`. -/
def Kind.name : Kind → String
  | Kind.invalid => "invalid"
  | Kind.bool => "bool"
  | Kind.int => "int"
  | Kind.int64 => "int64"
  | Kind.string => "string"
  | Kind.func => "func"

/-- `reflect.ValueOf(f).Kind()`: the nil interface has kind `Invalid`, a nil func has kind `Func`,
a value of a defined type has the kind of its underlying type. -/
def reflect_Kind : Value → Kind
  | Value.nil => Kind.invalid
  | Value.bool _ => Kind.bool
  | Value.int _ => Kind.int
  | Value.int64 _ => Kind.int64
  | Value.string _ => Kind.string
  | Value.nilFunc _ => Kind.func
  | Value.func _ _ _ => Kind.func
  | Value.defined _ _ v => reflect_Kind v

/-- `reflect.Value.Pointer()` for a value of kind `Func`: the code pointer, which is zero exactly
for a nil func.  The package calls it only after the kind check; other kinds get 0 here. -/
def reflect_Pointer : Value → Nat
  | Value.func _ code _ => code
  | Value.defined _ _ v => reflect_Pointer v
  | _ => 0

/-- The static types that instantiate the type parameter `T` of `InjectValue` and
`ContextValue`: predeclared types, func types (one per signature), defined types with their
underlying type and method set, and interface types with their method set. -/
inductive GoType where
  | bool
  | int
  | int64
  | string
  | func (signature : String)
  | defined (name : String) (underlying : GoType) (methods : List String)
  | iface (methods : List String)
  deriving DecidableEq, Repr

/-- The empty interface `any`. -/
def GoType.any : GoType := GoType.iface []

/-- The interface `error`. -/
def GoType.error : GoType := GoType.defined "error" (GoType.iface ["Error() string"]) []

/-- The methods an interface type asks for; `none` for a type that is not an interface type.  A
defined type whose underlying type is an interface type (`error`) is an interface type. -/
def GoType.interfaceMethods : GoType → Option (List String)
  | GoType.iface ms => some ms
  | GoType.defined _ underlying _ => GoType.interfaceMethods underlying
  | _ => none

/-- The method set of a type that values can have. -/
def methodSet : GoType → List String
  | GoType.defined _ _ ms => ms
  | _ => []

/-- The dynamic type of an interface value; the nil interface has none. -/
def dynType : Value → Option GoType
  | Value.nil => none
  | Value.bool _ => some GoType.bool
  | Value.int _ => some GoType.int
  | Value.int64 _ => some GoType.int64
  | Value.string _ => some GoType.string
  | Value.nilFunc signature => some (GoType.func signature)
  | Value.func signature _ _ => some (GoType.func signature)
  | Value.defined name ms v =>
    match dynType v with
    | none => none
    | some underlying => some (GoType.defined name underlying ms)

/-- The zero value of a type (`var value T`): nil for an interface type. -/
def GoType.zero : GoType → Value
  | GoType.bool => Value.bool false
  | GoType.int => Value.int 0
  | GoType.int64 => Value.int64 0
  | GoType.string => Value.string ""
  | GoType.func signature => Value.nilFunc signature
  | GoType.iface _ => Value.nil
  | GoType.defined name underlying ms =>
    match GoType.interfaceMethods underlying with
    | some _ => Value.nil
    | none => Value.defined name ms (GoType.zero underlying)

/-- Whether the type `D` implements an interface with the methods `ms`. -/
def implements (D : GoType) (ms : List String) : Bool :=
  ms.all (fun m => decide (m ∈ methodSet D))

/-- The comma-ok type assertion `x.(T)`: for an interface type `T` it succeeds when `x` is not
the nil interface and its dynamic type implements `T`, for any other type exactly when the
dynamic type is `T`; on failure the first result is the zero value of `T`. -/
def typeAssert (x : Value) (T : GoType) : Value × Bool :=
  match GoType.interfaceMethods T with
  | some ms =>
    match dynType x with
    | none => (GoType.zero T, false)
    | some D => if implements D ms then (x, true) else (GoType.zero T, false)
  | none => if dynType x = some T then (x, true) else (GoType.zero T, false)

/-! ## Contexts -/

/-- The implementations of `context.Context` the package meets: `context.Background()` and
`context.WithValue(parent, key, val)`, whose parent is never nil (`WithValue` panics on a nil
parent). -/
inductive Ctx where
  | background
  | withValue (parent : Ctx) (key : Value) (val : Value)
  deriving DecidableEq, Repr

/-- An interface value of type `context.Context`: the nil interface or an implementation. -/
inductive Context where
  | nil
  | of (c : Ctx)
  deriving DecidableEq, Repr

/-- The method `Value(key)` of an implementation: the background context holds no value (the nil
interface comes back), a value context answers for its own key and asks its parent otherwise. -/
def Ctx.value : Ctx → Value → Value
  | Ctx.background, _ => Value.nil
  | Ctx.withValue parent k v, key => if k = key then v else Ctx.value parent key

/-- The method call `ctx.Value(key)` on an interface value; `none` is the panic of a method call
on the nil interface. -/
def ctxValue : Context → Value → Option Value
  | Context.nil, _ => none
  | Context.of c, key => some (c.value key)

/-! ## Errors -/

/-- The error values `Provide` can return: `errors.New(text)`, the
`fmt.Errorf("f %#v is not a function", f)` of `getFuncKey` (kept with its argument rather than as
formatted text), and `errors.Join(errs...)`. -/
inductive Error where
  | New (text : String)
  | Errorf_notAFunction (f : Value)
  | Join (errs : List Error)

/-- `errors.Join(errs...)` on a slice without nil entries: nil for the empty slice, an aggregate
of the entries in order otherwise.  `none` is the nil error. -/
def errors_Join (errs : List Error) : Option Error :=
  if errs.isEmpty then none else some (Error.Join errs)

/-! ## Runtime and package state -/

/-- The symbol table of the running program: `FuncForPC pc` is the name of the function that
contains `pc`, `none` when `runtime.FuncForPC(pc)` returns nil. -/
structure Runtime where
  FuncForPC : Nat → Option String

/-- `(*runtime.Func).Name()`, which answers "" on a nil receiver. -/
def Func_Name : Option String → String
  | none => ""
  | some n => n

/-- A call stack as `runtime.Caller` sees it from inside `getInjectKey`: program counters,
innermost frame first.  Entry 0 is `getInjectKey`, 1 is `inject`, 2 is `Inject` or `InjectValue`,
3 is the function that called them. -/
abbrev CallStack := List Nat

/-- `runtime.Caller(skip)`, reduced to the `pc` and `ok` results; `none` is `ok = false`. -/
def runtime_Caller (stack : CallStack) (skip : Nat) : Option Nat :=
  stack.get? skip

/-- The package-level variables.  `contextMap` is `map[string]*context.Context`: every stored
pointer is the address of the `ctx` parameter of one `Provide` call, which is never written
again, so the map is modelled as holding the context itself.  `runtimeCaller` is the
replaceable stack-introspection function. -/
structure State where
  contextMap : String → Option Context
  runtimeCaller : CallStack → Nat → Option Nat

/-- The state at package initialisation: an empty map and `runtime.Caller`. -/
def State.init : State :=
  { contextMap := fun _ => none, runtimeCaller := runtime_Caller }

/-- `var emptyContext = context.Background()`. -/
def emptyContext : Context := Context.of Ctx.background

/-- `var emptyFunc = func() {}`. -/
def emptyFunc : State → State := fun s => s

/-- `export_test.go`: `StubRuntimeCaller` replaces `runtimeCaller` by a function that returns the
zero values, so `ok = false`. -/
def StubRuntimeCaller (s : State) : State :=
  { s with runtimeCaller := fun _ _ => none }

/-! ## The package functions -/

/-- `getKey(pc)`: `runtime.FuncForPC(pc).Name()`. -/
def getKey (rt : Runtime) (pc : Nat) : String :=
  Func_Name (rt.FuncForPC pc)

/-- `getFuncKey(f)`: the key and the error (`none` is nil). -/
def getFuncKey (rt : Runtime) (f : Value) : String × Option Error :=
  if (reflect_Kind f).name ≠ "func" then
    ("", some (Error.Errorf_notAFunction f))
  else
    (getKey rt (reflect_Pointer f), none)

/-- `freeFunc(key)`: `delete(contextMap, key)`. -/
def freeFunc (s : State) (key : String) : State :=
  { s with contextMap := fun k => if k = key then none else s.contextMap k }

/-- The assignment `contextMap[key] = ctxPtr`. -/
def setContext (s : State) (key : String) (ctxPtr : Context) : State :=
  { s with contextMap := fun k => if k = key then some ctxPtr else s.contextMap k }

/-- The loop `for _, f := range funcs` of `Provide`, carrying `errs` and the package state. -/
def provideLoop (rt : Runtime) (ctxPtr : Context) : List Value → List Error × State → List Error × State
  | [], acc => acc
  | f :: fs, (errs, s) =>
    match getFuncKey rt f with
    | (_, some err) => provideLoop rt ctxPtr fs (errs ++ [err], s)
    | (key, none) => provideLoop rt ctxPtr fs (errs, setContext s key ctxPtr)

/-- `Provide(ctx, first, rest...)`: the returned error (`none` is nil) and the state after. -/
def Provide (rt : Runtime) (s : State) (ctx : Context) (first : Value) (rest : List Value) :
    Option Error × State :=
  if ctx = Context.nil then
    (some (Error.New "provided ctx is nil"), s)
  else
    let funcs := first :: rest
    let r := provideLoop rt ctx funcs ([], s)
    if r.1.length > 0 then (errors_Join r.1, r.2) else (none, r.2)

/-- `getInjectKey()`, called with the stack `stack`. -/
def getInjectKey (rt : Runtime) (s : State) (stack : CallStack) : String :=
  match s.runtimeCaller stack 3 with
  | none => ""
  | some pc => getKey rt pc

/-- `inject()`: its three results and the state after.  The release handle is a closure over
`key` that acts on the package state of the moment it is invoked. -/
def inject (rt : Runtime) (s : State) (stack : CallStack) : (Context × Bool × (State → State)) × State :=
  let key := getInjectKey rt s stack
  if key = "" then
    ((emptyContext, false, emptyFunc), s)
  else
    match s.contextMap key with
    | none => ((emptyContext, false, emptyFunc), s)
    | some ctxPtr => ((ctxPtr, true, fun s1 => freeFunc s1 key), s)

/-- `Inject()`. -/
def Inject (rt : Runtime) (s : State) (stack : CallStack) : (Context × Bool × (State → State)) × State :=
  inject rt s stack

/-- `ContextValue[T](ctx, key)`; `none` is the panic of `ctx.Value` on a nil context. -/
def ContextValue (T : GoType) (ctx : Context) (key : Value) : Option (Value × Bool) :=
  match ctxValue ctx key with
  | none => none
  | some x =>
    let r := typeAssert x T
    if !r.2 then some (GoType.zero T, r.2) else some (r.1, r.2)

/-- `InjectValue[T](key)`: `none` is a panic, otherwise the three results and the state after. -/
def InjectValue (T : GoType) (rt : Runtime) (s : State) (stack : CallStack) (key : Value) :
    Option ((Value × Bool × (State → State)) × State) :=
  let r := inject rt s stack
  if !r.1.2.1 then
    some ((GoType.zero T, r.1.2.1, r.1.2.2), r.2)
  else
    match ContextValue T r.1.1 key with
    | none => none
    | some a => some ((a.1, a.2, r.1.2.2), r.2)

/-- `FreeContext(funcs...)`: the error of `getFuncKey` is dropped and its key is freed. -/
def FreeContext (rt : Runtime) : State → List Value → State
  | s, [] => s
  | s, f :: fs => FreeContext rt (freeFunc s (getFuncKey rt f).1) fs

/-! ## A concrete program for the examples -/

/-- A symbol table with three named functions; no function contains address 0. -/
def demoRuntime : Runtime :=
  { FuncForPC := fun pc =>
      match pc with
      | 0 => none
      | 1 => some "main.receiver"
      | 2 => some "main.intermediate"
      | 3 => some "main.receiver2"
      | _ => none }

/-- A context as in the tests: one value under one key. -/
def demoCtx : Context :=
  Context.of (Ctx.withValue Ctx.background (Value.string "question") (Value.int64 42))

/-- A value of a defined string type with the method `Error() string`. -/
def demoErr : Value := Value.defined "main.myErr" ["Error() string"] (Value.string "boom")

/-- A context with an error value under "err" and a `func(int)` value under "handler". -/
def demoTypedCtx : Context :=
  Context.of (Ctx.withValue (Ctx.withValue Ctx.background (Value.string "err") demoErr)
    (Value.string "handler") (Value.func "func(int)" 2 0))

/-- A call stack whose frame 3 lies in the function at address `pc`. -/
def stackFrom (pc : Nat) : CallStack := [100, 101, 102, pc]

/-- The state after `Provide(demoCtx, receiver, receiver2)` from the initial state. -/
def demoState : State :=
  (Provide demoRuntime State.init demoCtx (Value.func "func()" 1 0) [Value.func "func()" 3 7]).2

/-- The state after `Provide(demoCtx, f, receiver)` from the initial state, `f` a nil func. -/
def demoStateNilFunc : State :=
  (Provide demoRuntime State.init demoCtx (Value.nilFunc "func()") [Value.func "func()" 1 0]).2

/-- The `value` and `ok` results of an `InjectValue` call; `none` when the call panicked. -/
def valueOk (r : Option ((Value × Bool × (State → State)) × State)) : Option (Value × Bool) :=
  match r with
  | none => none
  | some x => some (x.1.1, x.1.2.1)

/-- The package states a program reaches from an empty registry by calls of `Provide`, of
`FreeContext` and of release handles.  A release handle is one that `Inject` or `InjectValue`
returned, in whatever state `t` and for whatever caller it was obtained. -/
inductive Reachable (rt : Runtime) : State → Prop where
  | empty (rc : CallStack → Nat → Option Nat) :
      Reachable rt { contextMap := fun _ => none, runtimeCaller := rc }
  | provide (s : State) (ctx : Context) (first : Value) (rest : List Value) :
      Reachable rt s → Reachable rt (Provide rt s ctx first rest).2
  | freeContext (s : State) (fs : List Value) :
      Reachable rt s → Reachable rt (FreeContext rt s fs)
  | releaseInject (s t : State) (stack : CallStack) :
      Reachable rt s → Reachable rt ((Inject rt t stack).1.2.2 s)
  | releaseInjectValue (s t : State) (stack : CallStack) (T : GoType) (key : Value)
      (r : (Value × Bool × (State → State)) × State) :
      Reachable rt s → InjectValue T rt t stack key = some r → Reachable rt (r.1.2.2 s)

/-! ## Auxiliary facts -/

theorem kind_name_ne_func (k : Kind) : k.name ≠ "func" ↔ k ≠ Kind.func := by
  cases k <;> simp [Kind.name]

theorem getFuncKey_func (rt : Runtime) (f : Value) (hf : reflect_Kind f = Kind.func) :
    getFuncKey rt f = (getKey rt (reflect_Pointer f), none) := by
  simp [getFuncKey, hf, Kind.name]

theorem getFuncKey_not_func (rt : Runtime) (f : Value) (hf : reflect_Kind f ≠ Kind.func) :
    getFuncKey rt f = ("", some (Error.Errorf_notAFunction f)) := by
  have h : (reflect_Kind f).name ≠ "func" := (kind_name_ne_func _).mpr hf
  simp [getFuncKey, h]

theorem state_ext (s t : State) (hm : ∀ k, s.contextMap k = t.contextMap k)
    (hr : s.runtimeCaller = t.runtimeCaller) : s = t := by
  cases s
  cases t
  simp only [State.mk.injEq]
  exact ⟨funext hm, hr⟩

theorem provideLoop_errs (rt : Runtime) (ctx : Context) (fs : List Value) (errs : List Error)
    (s : State) :
    (provideLoop rt ctx fs (errs, s)).1 =
      errs ++ (fs.filter (fun v => decide (reflect_Kind v ≠ Kind.func))).map
        Error.Errorf_notAFunction := by
  induction fs generalizing errs s with
  | nil => simp [provideLoop]
  | cons f fs ih =>
    by_cases hf : reflect_Kind f = Kind.func
    · simp [provideLoop, getFuncKey_func rt f hf, ih, hf]
    · simp [provideLoop, getFuncKey_not_func rt f hf, ih, hf]

theorem provideLoop_runtimeCaller (rt : Runtime) (ctx : Context) (fs : List Value)
    (errs : List Error) (s : State) :
    (provideLoop rt ctx fs (errs, s)).2.runtimeCaller = s.runtimeCaller := by
  induction fs generalizing errs s with
  | nil => simp [provideLoop]
  | cons f fs ih =>
    by_cases hf : reflect_Kind f = Kind.func
    · simp [provideLoop, getFuncKey_func rt f hf, ih, setContext]
    · simp [provideLoop, getFuncKey_not_func rt f hf, ih]

theorem provideLoop_keeps (rt : Runtime) (ctx : Context) (fs : List Value) (errs : List Error)
    (s : State) (k : String) (hk : s.contextMap k = some ctx) :
    (provideLoop rt ctx fs (errs, s)).2.contextMap k = some ctx := by
  induction fs generalizing errs s with
  | nil => simpa [provideLoop] using hk
  | cons g gs ih =>
    by_cases hg : reflect_Kind g = Kind.func
    · simp only [provideLoop, getFuncKey_func rt g hg]
      apply ih
      simp only [setContext]
      split
      · rfl
      · exact hk
    · simp only [provideLoop, getFuncKey_not_func rt g hg]
      exact ih _ _ hk

theorem provideLoop_stored (rt : Runtime) (ctx : Context) (fs : List Value) (errs : List Error)
    (s : State) (f : Value) (hmem : f ∈ fs) (hf : reflect_Kind f = Kind.func) :
    (provideLoop rt ctx fs (errs, s)).2.contextMap (getKey rt (reflect_Pointer f)) = some ctx := by
  induction fs generalizing errs s with
  | nil => simp at hmem
  | cons g gs ih =>
    rcases List.mem_cons.mp hmem with h | h
    · subst h
      simp only [provideLoop, getFuncKey_func rt f hf]
      apply provideLoop_keeps
      simp [setContext]
    · by_cases hg : reflect_Kind g = Kind.func
      · simp only [provideLoop, getFuncKey_func rt g hg]
        exact ih _ _ h
      · simp only [provideLoop, getFuncKey_not_func rt g hg]
        exact ih _ _ h

theorem provideLoop_other (rt : Runtime) (ctx : Context) (fs : List Value) (errs : List Error)
    (s : State) (k : String)
    (hk : ∀ f ∈ fs, reflect_Kind f = Kind.func → getKey rt (reflect_Pointer f) ≠ k) :
    (provideLoop rt ctx fs (errs, s)).2.contextMap k = s.contextMap k := by
  induction fs generalizing errs s with
  | nil => simp [provideLoop]
  | cons g gs ih =>
    have hk2 : ∀ f ∈ gs, reflect_Kind f = Kind.func → getKey rt (reflect_Pointer f) ≠ k :=
      fun f hf => hk f (List.mem_cons_of_mem _ hf)
    by_cases hg : reflect_Kind g = Kind.func
    · simp only [provideLoop, getFuncKey_func rt g hg]
      rw [ih _ _ hk2]
      have hne : k ≠ getKey rt (reflect_Pointer g) := fun h => hk g (List.mem_cons_self _ _) hg h.symm
      simp [setContext, hne]
    · simp only [provideLoop, getFuncKey_not_func rt g hg]
      exact ih _ _ hk2

theorem Provide_state (rt : Runtime) (s : State) (ctx : Context) (first : Value)
    (rest : List Value) (hctx : ctx ≠ Context.nil) :
    (Provide rt s ctx first rest).2 = (provideLoop rt ctx (first :: rest) ([], s)).2 := by
  simp only [Provide, if_neg hctx]
  split <;> rfl

theorem Provide_error (rt : Runtime) (s : State) (ctx : Context) (first : Value)
    (rest : List Value) (hctx : ctx ≠ Context.nil) :
    (Provide rt s ctx first rest).1 =
      errors_Join (((first :: rest).filter (fun v => decide (reflect_Kind v ≠ Kind.func))).map
        Error.Errorf_notAFunction) := by
  simp only [Provide, if_neg hctx]
  rw [provideLoop_errs]
  simp only [List.nil_append]
  split
  · rfl
  · rename_i h
    have h0 : ((List.filter (fun v => decide (reflect_Kind v ≠ Kind.func)) (first :: rest)).map
        Error.Errorf_notAFunction) = [] := by
      apply List.eq_nil_of_length_eq_zero
      omega
    rw [h0]
    rfl

theorem Provide_runtimeCaller (rt : Runtime) (s : State) (ctx : Context) (first : Value)
    (rest : List Value) :
    (Provide rt s ctx first rest).2.runtimeCaller = s.runtimeCaller := by
  by_cases hctx : ctx = Context.nil
  · simp [Provide, hctx]
  · rw [Provide_state rt s ctx first rest hctx]
    exact provideLoop_runtimeCaller _ _ _ _ _

theorem getInjectKey_congr (rt : Runtime) (s t : State) (stack : CallStack)
    (h : s.runtimeCaller = t.runtimeCaller) : getInjectKey rt s stack = getInjectKey rt t stack := by
  simp [getInjectKey, h]

theorem inject_present (rt : Runtime) (s : State) (stack : CallStack) (ctx : Context)
    (hne : getInjectKey rt s stack ≠ "")
    (hentry : s.contextMap (getInjectKey rt s stack) = some ctx) :
    inject rt s stack = ((ctx, true, fun s1 => freeFunc s1 (getInjectKey rt s stack)), s) := by
  simp [inject, hne, hentry]

theorem inject_absent (rt : Runtime) (s : State) (stack : CallStack)
    (hentry : s.contextMap (getInjectKey rt s stack) = none) :
    inject rt s stack = ((emptyContext, false, emptyFunc), s) := by
  simp only [inject]
  split
  · rfl
  · simp [hentry]

theorem Provide_single (rt : Runtime) (s : State) (ctx : Context) (f : Value)
    (hctx : ctx ≠ Context.nil) (hf : reflect_Kind f = Kind.func) :
    (Provide rt s ctx f []).2 = setContext s (getFuncKey rt f).1 ctx := by
  rw [Provide_state rt s ctx f [] hctx]
  simp [provideLoop, getFuncKey_func rt f hf]

theorem FreeContext_runtimeCaller (rt : Runtime) (s : State) (fs : List Value) :
    (FreeContext rt s fs).runtimeCaller = s.runtimeCaller := by
  induction fs generalizing s with
  | nil => rfl
  | cons f fs ih =>
    simp only [FreeContext]
    rw [ih]
    rfl

theorem FreeContext_freed (rt : Runtime) (s : State) (fs : List Value) (k : String)
    (hk : ∃ f ∈ fs, (getFuncKey rt f).1 = k) : (FreeContext rt s fs).contextMap k = none := by
  induction fs generalizing s with
  | nil => simp at hk
  | cons g gs ih =>
    simp only [FreeContext]
    by_cases hin : ∃ f ∈ gs, (getFuncKey rt f).1 = k
    · exact ih _ hin
    · obtain ⟨f, hf, hfk⟩ := hk
      rcases List.mem_cons.mp hf with h | h
      · subst h
        have hkeep : ∀ (t : State), t.contextMap k = none →
            (FreeContext rt t gs).contextMap k = none := by
          clear ih hin hf
          induction gs with
          | nil => intro t ht; exact ht
          | cons a as iha =>
            intro t ht
            simp only [FreeContext]
            apply iha
            simp only [freeFunc]
            split
            · rfl
            · exact ht
        apply hkeep
        simp [freeFunc, hfk]
      · exact absurd ⟨f, h, hfk⟩ hin

theorem FreeContext_other (rt : Runtime) (s : State) (fs : List Value) (k : String)
    (hk : ∀ f ∈ fs, (getFuncKey rt f).1 ≠ k) :
    (FreeContext rt s fs).contextMap k = s.contextMap k := by
  induction fs generalizing s with
  | nil => rfl
  | cons g gs ih =>
    simp only [FreeContext]
    rw [ih _ (fun f hf => hk f (List.mem_cons_of_mem _ hf))]
    have hne : k ≠ (getFuncKey rt g).1 := fun h => hk g (List.mem_cons_self _ _) h.symm
    simp [freeFunc, hne]

theorem ContextValue_of (T : GoType) (c : Ctx) (key : Value) :
    ∃ v ok, ContextValue T (Context.of c) key = some (v, ok) := by
  simp only [ContextValue, ctxValue]
  split <;> exact ⟨_, _, rfl⟩

/-! ## Provide -/

/-- C1: `Provide` with a nil context returns exactly the nil-context error, which is not an
aggregate of resolution errors, and leaves the package state as it was, whatever the registry
holds and whatever values (functions or not) are passed. -/
theorem Provide_nil_context (rt : Runtime) (s : State) (first : Value) (rest : List Value) :
    Provide rt s Context.nil first rest = (some (Error.New "provided ctx is nil"), s) ∧
    (Provide rt s Context.nil first rest).1 ≠ none ∧
    (∀ errs, (Provide rt s Context.nil first rest).1 ≠ some (Error.Join errs)) ∧
    (Provide rt s Context.nil first rest).2 = s := by
  simp [Provide]

/-- C2: after `Provide(ctx, f)` with a non-nil `ctx` and a function value `f`, an `Inject` whose
calling frame resolves to the identity of `f` (the key is the one of `f`; it is not the empty
string, which is what `getInjectKey` returns for a failed resolution) returns `ctx`, `true` and a
handle that frees that key; an `Inject` whose calling frame resolves to a different identity,
one that has no entry, returns the background context, `false` and `emptyFunc`. -/
theorem Inject_after_Provide (rt : Runtime) (s : State) (ctx : Context) (f : Value)
    (stackF stackG : CallStack)
    (hctx : ctx ≠ Context.nil) (hf : reflect_Kind f = Kind.func)
    (hF : getInjectKey rt (Provide rt s ctx f []).2 stackF = (getFuncKey rt f).1)
    (hres : getInjectKey rt (Provide rt s ctx f []).2 stackF ≠ "")
    (hG : getInjectKey rt (Provide rt s ctx f []).2 stackG ≠ (getFuncKey rt f).1)
    (hnone : s.contextMap (getInjectKey rt (Provide rt s ctx f []).2 stackG) = none) :
    Inject rt (Provide rt s ctx f []).2 stackF =
      ((ctx, true, fun s1 => freeFunc s1 (getFuncKey rt f).1), (Provide rt s ctx f []).2) ∧
    Inject rt (Provide rt s ctx f []).2 stackG =
      ((emptyContext, false, emptyFunc), (Provide rt s ctx f []).2) := by
  constructor
  · have hstored : (Provide rt s ctx f []).2.contextMap
        (getInjectKey rt (Provide rt s ctx f []).2 stackF) = some ctx := by
      rw [hF, getFuncKey_func rt f hf, Provide_state rt s ctx f [] hctx]
      exact provideLoop_stored rt ctx [f] [] s f (List.mem_singleton.mpr rfl) hf
    have h := inject_present rt _ stackF ctx hres hstored
    rw [hF] at h
    exact h
  · apply inject_absent
    rw [← hnone, Provide_state rt s ctx f [] hctx]
    apply provideLoop_other
    intro g hg hgf
    rw [List.mem_singleton] at hg
    subst hg
    intro hk
    apply hG
    rw [getFuncKey_func rt g hgf, hk, Provide_state rt s ctx g [] hctx]

/-- C3: `Provide(ctx, v)` with a non-nil `ctx` and a value `v` that is not of kind func returns a
non-nil error (the aggregate of the one resolution error) and leaves the package state as it
was. -/
theorem Provide_not_a_function (rt : Runtime) (s : State) (ctx : Context) (v : Value)
    (hctx : ctx ≠ Context.nil) (hv : reflect_Kind v ≠ Kind.func) :
    (Provide rt s ctx v []).1 ≠ none ∧
    (Provide rt s ctx v []).1 = some (Error.Join [Error.Errorf_notAFunction v]) ∧
    (Provide rt s ctx v []).2 = s := by
  have herr := Provide_error rt s ctx v [] hctx
  have hst := Provide_state rt s ctx v [] hctx
  simp only [List.filter, hv, ne_eq, not_false_eq_true, decide_True, List.map, errors_Join,
    List.isEmpty_cons, Bool.false_eq_true, if_false] at herr
  refine ⟨?_, herr, ?_⟩
  · rw [herr]; simp
  · rw [hst]
    simp [provideLoop, getFuncKey_not_func rt v hv]

/-- C4: with a non-nil `ctx`, the registry after `Provide(ctx, first, rest...)` maps the identity
of every function value among the arguments to `ctx`, wherever non-function values stand in the
list, and agrees with the registry before the call on every key that is the identity of none of
them; `runtimeCaller` is not touched. -/
theorem Provide_partial_success (rt : Runtime) (s : State) (ctx : Context) (first : Value)
    (rest : List Value) (hctx : ctx ≠ Context.nil) :
    (∀ f ∈ first :: rest, reflect_Kind f = Kind.func →
      (Provide rt s ctx first rest).2.contextMap (getFuncKey rt f).1 = some ctx) ∧
    (∀ k, (∀ f ∈ first :: rest, reflect_Kind f = Kind.func → (getFuncKey rt f).1 ≠ k) →
      (Provide rt s ctx first rest).2.contextMap k = s.contextMap k) ∧
    (Provide rt s ctx first rest).2.runtimeCaller = s.runtimeCaller := by
  rw [Provide_state rt s ctx first rest hctx]
  refine ⟨?_, ?_, provideLoop_runtimeCaller _ _ _ _ _⟩
  · intro f hmem hf
    rw [getFuncKey_func rt f hf]
    exact provideLoop_stored rt ctx _ [] s f hmem hf
  · intro k hk
    apply provideLoop_other
    intro f hmem hf
    have := hk f hmem hf
    rwa [getFuncKey_func rt f hf] at this

/-- C5: with a non-nil `ctx`, `Provide(ctx, first, rest...)` returns nil exactly when every
argument is of kind func; in every case the result is `errors.Join` of one resolution error per
non-function argument, in argument order, so with at least one non-function argument it is that
aggregate, whether or not identities were stored. -/
theorem Provide_error_aggregate (rt : Runtime) (s : State) (ctx : Context) (first : Value)
    (rest : List Value) (hctx : ctx ≠ Context.nil) :
    ((Provide rt s ctx first rest).1 = none ↔ ∀ v ∈ first :: rest, reflect_Kind v = Kind.func) ∧
    ((∃ v ∈ first :: rest, reflect_Kind v ≠ Kind.func) →
      (Provide rt s ctx first rest).1 =
        some (Error.Join (((first :: rest).filter
          (fun v => decide (reflect_Kind v ≠ Kind.func))).map Error.Errorf_notAFunction))) := by
  rw [Provide_error rt s ctx first rest hctx]
  constructor
  · constructor
    · intro h v hv
      by_contra hk
      have hmem : v ∈ (first :: rest).filter (fun v => decide (reflect_Kind v ≠ Kind.func)) := by
        simp only [List.mem_filter, decide_eq_true_eq]
        exact ⟨hv, hk⟩
      have hne : ((first :: rest).filter (fun v => decide (reflect_Kind v ≠ Kind.func))).map
          Error.Errorf_notAFunction ≠ [] := by
        intro h0
        rw [List.map_eq_nil_iff] at h0
        rw [h0] at hmem
        simp at hmem
      simp only [errors_Join] at h
      split at h
      · rename_i he
        exact hne (List.isEmpty_iff.mp he)
      · simp at h
    · intro h
      have h0 : (first :: rest).filter (fun v => decide (reflect_Kind v ≠ Kind.func)) = [] := by
        rw [List.filter_eq_nil_iff]
        intro v hv
        simp [h v hv]
      rw [h0]
      rfl
  · rintro ⟨v, hv, hk⟩
    have hmem : v ∈ (first :: rest).filter (fun v => decide (reflect_Kind v ≠ Kind.func)) := by
      simp only [List.mem_filter, decide_eq_true_eq]
      exact ⟨hv, hk⟩
    simp only [errors_Join]
    split
    · rename_i he
      rw [List.isEmpty_iff, List.map_eq_nil_iff] at he
      rw [he] at hmem
      simp at hmem
    · rfl

/-- C6: last write wins.  With non-nil contexts and a function value `f`, `Provide(ctx1, f)`
followed by `Provide(ctx2, f)` leaves the same package state as `Provide(ctx2, f)` alone, the one
entry under the identity of `f` is `ctx2`, and an `Inject` whose calling frame resolves to that
identity returns `ctx2` and `true`. -/
theorem Provide_last_write_wins (rt : Runtime) (s : State) (ctx1 ctx2 : Context) (f : Value)
    (stack : CallStack)
    (h1 : ctx1 ≠ Context.nil) (h2 : ctx2 ≠ Context.nil) (hf : reflect_Kind f = Kind.func)
    (hF : getInjectKey rt (Provide rt (Provide rt s ctx1 f []).2 ctx2 f []).2 stack =
      (getFuncKey rt f).1)
    (hres : (getFuncKey rt f).1 ≠ "") :
    (Provide rt (Provide rt s ctx1 f []).2 ctx2 f []).2 = (Provide rt s ctx2 f []).2 ∧
    (Provide rt (Provide rt s ctx1 f []).2 ctx2 f []).2.contextMap (getFuncKey rt f).1 =
      some ctx2 ∧
    Inject rt (Provide rt (Provide rt s ctx1 f []).2 ctx2 f []).2 stack =
      ((ctx2, true, fun s1 => freeFunc s1 (getFuncKey rt f).1),
        (Provide rt (Provide rt s ctx1 f []).2 ctx2 f []).2) := by
  have hstored : (Provide rt (Provide rt s ctx1 f []).2 ctx2 f []).2.contextMap
      (getFuncKey rt f).1 = some ctx2 := by
    rw [Provide_single rt _ ctx2 f h2 hf]
    simp [setContext]
  refine ⟨?_, hstored, ?_⟩
  · rw [Provide_single rt _ ctx2 f h2 hf, Provide_single rt _ ctx1 f h1 hf,
      Provide_single rt _ ctx2 f h2 hf]
    apply state_ext
    · intro k
      simp only [setContext]
      split <;> rfl
    · rfl
  · have h := inject_present rt _ stack ctx2 (by rw [hF]; exact hres) (by rw [hF]; exact hstored)
    rw [hF] at h
    exact h

/-! ## Inject and the release handle -/

/-- C7: when the calling frame resolves to the identity `k` (a non-empty key) and `k` has an
entry, `Inject` returns that entry, `true` and the handle that frees `k`; after the handle has
run, an `Inject` from `k` returns the background context, `false` and `emptyFunc`, and running
`emptyFunc` leaves the package state as it is. -/
theorem Inject_release_then_absent (rt : Runtime) (s : State) (stack stack2 : CallStack)
    (k : String) (ctx : Context)
    (hk : getInjectKey rt s stack = k) (hres : k ≠ "") (hentry : s.contextMap k = some ctx)
    (hk2 : getInjectKey rt ((Inject rt s stack).1.2.2 (Inject rt s stack).2) stack2 = k) :
    (Inject rt s stack).1.1 = ctx ∧
    (Inject rt s stack).1.2.1 = true ∧
    (Inject rt s stack).1.2.2 = (fun s1 => freeFunc s1 k) ∧
    Inject rt ((Inject rt s stack).1.2.2 (Inject rt s stack).2) stack2 =
      ((emptyContext, false, emptyFunc), (Inject rt s stack).1.2.2 (Inject rt s stack).2) ∧
    emptyFunc ((Inject rt s stack).1.2.2 (Inject rt s stack).2) =
      (Inject rt s stack).1.2.2 (Inject rt s stack).2 := by
  have h := inject_present rt s stack ctx (by rw [hk]; exact hres) (by rw [hk]; exact hentry)
  rw [hk] at h
  have hI : Inject rt s stack = ((ctx, true, fun s1 => freeFunc s1 k), s) := h
  rw [hI] at hk2 ⊢
  refine ⟨rfl, rfl, rfl, ?_, rfl⟩
  apply inject_absent
  simp only at hk2 ⊢
  rw [hk2]
  simp [freeFunc]

/-- C9: the release handle removes exactly one entry.  With two distinct identities `k1` and `k2`
that both have entries, the handle returned by `Inject` from `k1` is the one that frees `k1`:
run on any package state it removes the entry of `k1` and leaves every other entry and
`runtimeCaller` as they are; run after the `Inject`, it leaves the entry of `k2`, and an `Inject`
from `k2` still returns that entry with `true`.  `InjectValue` from `k1` returns (it does so
whenever the stored context is not nil) with the same handle. -/
theorem release_handle_removes_one_entry (rt : Runtime) (s : State) (stack1 stack2 : CallStack)
    (k1 k2 : String) (c1 c2 : Context) (T : GoType) (key : Value)
    (hk1 : getInjectKey rt s stack1 = k1) (hres1 : k1 ≠ "")
    (hk2 : getInjectKey rt s stack2 = k2) (hres2 : k2 ≠ "")
    (hne : k1 ≠ k2)
    (he1 : s.contextMap k1 = some c1) (he2 : s.contextMap k2 = some c2) :
    (Inject rt s stack1).1.2.2 = (fun s1 => freeFunc s1 k1) ∧
    (∀ t : State, ((Inject rt s stack1).1.2.2 t).contextMap k1 = none ∧
      (∀ k, k ≠ k1 → ((Inject rt s stack1).1.2.2 t).contextMap k = t.contextMap k) ∧
      ((Inject rt s stack1).1.2.2 t).runtimeCaller = t.runtimeCaller) ∧
    ((Inject rt s stack1).1.2.2 (Inject rt s stack1).2).contextMap k2 = some c2 ∧
    Inject rt ((Inject rt s stack1).1.2.2 (Inject rt s stack1).2) stack2 =
      ((c2, true, fun s1 => freeFunc s1 k2), (Inject rt s stack1).1.2.2 (Inject rt s stack1).2) ∧
    (c1 ≠ Context.nil → ∃ v ok, InjectValue T rt s stack1 key =
      some ((v, ok, (Inject rt s stack1).1.2.2), s)) := by
  have h := inject_present rt s stack1 c1 (by rw [hk1]; exact hres1) (by rw [hk1]; exact he1)
  rw [hk1] at h
  have hI : Inject rt s stack1 = ((c1, true, fun s1 => freeFunc s1 k1), s) := h
  have hfree2 : (freeFunc s k1).contextMap k2 = some c2 := by
    simp [freeFunc, hne.symm, he2]
  have hkey2 : getInjectKey rt (freeFunc s k1) stack2 = k2 := by
    rw [← hk2]
    exact getInjectKey_congr rt _ _ stack2 rfl
  rw [hI]
  refine ⟨rfl, ?_, hfree2, ?_, ?_⟩
  · intro t
    refine ⟨by simp [freeFunc], ?_, rfl⟩
    intro k hkne
    simp [freeFunc, hkne]
  · have h2 := inject_present rt (freeFunc s k1) stack2 c2 (by rw [hkey2]; exact hres2)
      (by rw [hkey2]; exact hfree2)
    rw [hkey2] at h2
    exact h2
  · intro hc1
    cases c1 with
    | nil => exact absurd rfl hc1
    | of c =>
      obtain ⟨v, ok, hv⟩ := ContextValue_of T c key
      exact ⟨v, ok, by simp [InjectValue, h, hv]⟩

/-! ## FreeContext -/

/-- C8: for a list `fs` of function values, after `FreeContext(fs...)` no identity of a function
in `fs` has an entry, so an `Inject` whose calling frame resolves to one of them returns the
background context, `false` and `emptyFunc`; every key that is the identity of none of them keeps
what it had, and `runtimeCaller` is not touched.  For a function whose identity has no entry the
call changes nothing, and freeing a second time gives the state of freeing once. -/
theorem FreeContext_removes (rt : Runtime) (s : State) (fs : List Value)
    (hfs : ∀ f ∈ fs, reflect_Kind f = Kind.func) :
    (∀ f ∈ fs, (FreeContext rt s fs).contextMap (getKey rt (reflect_Pointer f)) = none) ∧
    (∀ f ∈ fs, ∀ stack,
      getInjectKey rt (FreeContext rt s fs) stack = getKey rt (reflect_Pointer f) →
      Inject rt (FreeContext rt s fs) stack =
        ((emptyContext, false, emptyFunc), FreeContext rt s fs)) ∧
    (∀ k, (∀ f ∈ fs, getKey rt (reflect_Pointer f) ≠ k) →
      (FreeContext rt s fs).contextMap k = s.contextMap k) ∧
    (FreeContext rt s fs).runtimeCaller = s.runtimeCaller ∧
    (∀ f ∈ fs, s.contextMap (getKey rt (reflect_Pointer f)) = none → FreeContext rt s [f] = s) ∧
    (∀ f ∈ fs, FreeContext rt (FreeContext rt s [f]) [f] = FreeContext rt s [f]) ∧
    FreeContext rt (FreeContext rt s fs) fs = FreeContext rt s fs := by
  have hkey : ∀ f ∈ fs, (getFuncKey rt f).1 = getKey rt (reflect_Pointer f) := by
    intro f hf
    rw [getFuncKey_func rt f (hfs f hf)]
  have hfreed : ∀ f ∈ fs, (FreeContext rt s fs).contextMap (getKey rt (reflect_Pointer f)) =
      none := by
    intro f hf
    exact FreeContext_freed rt s fs _ ⟨f, hf, hkey f hf⟩
  refine ⟨hfreed, ?_, ?_, FreeContext_runtimeCaller rt s fs, ?_, ?_, ?_⟩
  · intro f hf stack hstack
    apply inject_absent
    rw [hstack]
    exact hfreed f hf
  · intro k hk
    apply FreeContext_other
    intro f hf
    rw [hkey f hf]
    exact hk f hf
  · intro f hf hnone
    apply state_ext
    · intro k
      simp only [FreeContext, freeFunc, hkey f hf]
      split
      · rename_i h
        rw [h, hnone]
      · rfl
    · rfl
  · intro f _
    apply state_ext
    · intro k
      simp only [FreeContext, freeFunc]
      split <;> rfl
    · rfl
  · apply state_ext
    · intro k
      by_cases hex : ∃ f ∈ fs, (getFuncKey rt f).1 = k
      · rw [FreeContext_freed rt _ fs k hex, FreeContext_freed rt s fs k hex]
      · have hall : ∀ f ∈ fs, (getFuncKey rt f).1 ≠ k := fun f hf h => hex ⟨f, hf, h⟩
        rw [FreeContext_other rt _ fs k hall]
    · rw [FreeContext_runtimeCaller]

/-- C10, evaluated on the code: a nil func value has kind func and code pointer 0, so
`Provide(demoCtx, f, receiver)` with a nil `f` returns nil and stores `demoCtx` under the key ""
as well as under the key of `receiver`.  In that state `FreeContext(2)` removes the entry under
"" (the key `getFuncKey` returns next to its error), and `FreeContext(receiver, 2)` removes it
together with the entry of `receiver`. -/
theorem FreeContext_not_a_function_frees_empty_key :
    reflect_Kind (Value.int 2) ≠ Kind.func ∧
    (Provide demoRuntime State.init demoCtx (Value.nilFunc "func()") [Value.func "func()" 1 0]).1 = none ∧
    demoStateNilFunc.contextMap "" = some demoCtx ∧
    demoStateNilFunc.contextMap "main.receiver" = some demoCtx ∧
    (FreeContext demoRuntime demoStateNilFunc [Value.int 2]).contextMap "" = none ∧
    FreeContext demoRuntime demoStateNilFunc [Value.int 2] ≠ demoStateNilFunc ∧
    (FreeContext demoRuntime demoStateNilFunc [Value.func "func()" 1 0, Value.int 2]).contextMap "" =
      none := by
  refine ⟨by decide, rfl, by decide, by decide, by decide, ?_, by decide⟩
  intro h
  have h2 : (FreeContext demoRuntime demoStateNilFunc [Value.int 2]).contextMap "" =
      demoStateNilFunc.contextMap "" := by rw [h]
  revert h2
  decide

/-! ## Retrieval -/

theorem inject_state (rt : Runtime) (s : State) (stack : CallStack) :
    (inject rt s stack).2 = s := by
  simp only [inject]
  split
  · rfl
  · split <;> rfl

theorem inject_failed (rt : Runtime) (s : State) (stack : CallStack)
    (hkey : getInjectKey rt s stack = "") :
    inject rt s stack = ((emptyContext, false, emptyFunc), s) := by
  simp [inject, hkey]

theorem inject_same_key (rt : Runtime) (s : State) (stack stack2 : CallStack)
    (h : getInjectKey rt s stack2 = getInjectKey rt s stack) :
    inject rt s stack2 = inject rt s stack := by
  simp only [inject, h]

theorem freeFunc_cleared (s : State) (k : String) : (freeFunc s k).contextMap k = none := by
  simp [freeFunc]

/-- C11: when `runtimeCaller(3)` reports `ok = false`, `Inject` returns the background context,
`false` and `emptyFunc` and the package state is as before, whatever entries the registry holds
and under whatever keys; `emptyFunc` changes no state.  After `StubRuntimeCaller` this is so for
every call stack, and the stub leaves the registry as it is. -/
theorem Inject_runtimeCaller_fails (rt : Runtime) (s : State) (stack : CallStack)
    (hfail : s.runtimeCaller stack 3 = none) :
    Inject rt s stack = ((emptyContext, false, emptyFunc), s) ∧
    (∀ t : State, emptyFunc t = t) ∧
    (∀ stack2 : CallStack, Inject rt (StubRuntimeCaller s) stack2 =
      ((emptyContext, false, emptyFunc), StubRuntimeCaller s)) ∧
    (StubRuntimeCaller s).contextMap = s.contextMap := by
  refine ⟨?_, fun _ => rfl, ?_, rfl⟩
  · apply inject_failed
    simp [getInjectKey, hfail]
  · intro stack2
    apply inject_failed
    simp [getInjectKey, StubRuntimeCaller]

/-- C12: when the calling frame resolves to the identity `k` (a non-empty key) and `k` has the
entry `ctx`, `InjectValue[T](key)` returns the value and `ok` of `ContextValue[T](ctx, key)`
together with the handle that frees `k` (both calls return whenever `ctx` is not nil), and the
state is as before.  When `ctx` holds int64 42 under `key`, `InjectValue[int64](key)` yields
42 and `true`, and after the handle has run a second call from `k` yields 0, `false` and
`emptyFunc`. -/
theorem InjectValue_agrees_with_ContextValue (T : GoType) (rt : Runtime) (s : State)
    (stack : CallStack) (k : String) (ctx : Context) (key : Value)
    (hk : getInjectKey rt s stack = k) (hres : k ≠ "") (hentry : s.contextMap k = some ctx) :
    valueOk (InjectValue T rt s stack key) = ContextValue T ctx key ∧
    (∀ r, InjectValue T rt s stack key = some r →
      r.1.2.2 = (fun s1 => freeFunc s1 k) ∧ r.2 = s ∧ (r.1.2.2 r.2).contextMap k = none) ∧
    (ctx ≠ Context.nil → ∃ v ok, ContextValue T ctx key = some (v, ok) ∧
      InjectValue T rt s stack key = some ((v, ok, fun s1 => freeFunc s1 k), s)) ∧
    (ctxValue ctx key = some (Value.int64 42) →
      InjectValue GoType.int64 rt s stack key =
        some ((Value.int64 42, true, fun s1 => freeFunc s1 k), s) ∧
      InjectValue GoType.int64 rt (freeFunc s k) stack key =
        some ((Value.int64 0, false, emptyFunc), freeFunc s k)) := by
  have h := inject_present rt s stack ctx (by rw [hk]; exact hres) (by rw [hk]; exact hentry)
  rw [hk] at h
  have hIV : InjectValue T rt s stack key =
      match ContextValue T ctx key with
      | none => none
      | some a => some ((a.1, a.2, fun s1 => freeFunc s1 k), s) := by
    simp [InjectValue, h]
  refine ⟨?_, ?_, ?_, ?_⟩
  · rw [hIV]
    cases ContextValue T ctx key <;> rfl
  · intro r hr
    rw [hIV] at hr
    cases hcv : ContextValue T ctx key with
    | none => rw [hcv] at hr; exact absurd hr (by simp)
    | some a =>
      rw [hcv] at hr
      have hr2 : r = ((a.1, a.2, fun s1 => freeFunc s1 k), s) := (Option.some.inj hr).symm
      subst hr2
      exact ⟨rfl, rfl, freeFunc_cleared s k⟩
  · intro hctx
    cases ctx with
    | nil => exact absurd rfl hctx
    | of c =>
      obtain ⟨v, ok, hv⟩ := ContextValue_of T c key
      exact ⟨v, ok, hv, by rw [hIV, hv]⟩
  · intro h42
    have hcv : ContextValue GoType.int64 ctx key = some (Value.int64 42, true) := by
      simp [ContextValue, h42, typeAssert, dynType, GoType.interfaceMethods]
    constructor
    · simp [InjectValue, h, hcv]
    · have hkey : getInjectKey rt (freeFunc s k) stack = k := by
        rw [← hk]
        exact getInjectKey_congr rt _ _ stack rfl
      have habs := inject_absent rt (freeFunc s k) stack (by rw [hkey]; exact freeFunc_cleared s k)
      simp [InjectValue, habs, GoType.zero]

theorem dynType_not_interface (x : Value) (D : GoType) (h : dynType x = some D) :
    GoType.interfaceMethods D = none := by
  induction x generalizing D with
  | defined name ms v ih =>
    simp only [dynType] at h
    cases hv : dynType v with
    | none => rw [hv] at h; exact absurd h (by simp)
    | some U =>
      rw [hv] at h
      rw [← Option.some.inj h]
      exact ih U hv
  | nil => exact absurd h (by simp [dynType])
  | bool _ => simp only [dynType] at h; rw [← Option.some.inj h]; rfl
  | int _ => simp only [dynType] at h; rw [← Option.some.inj h]; rfl
  | int64 _ => simp only [dynType] at h; rw [← Option.some.inj h]; rfl
  | string _ => simp only [dynType] at h; rw [← Option.some.inj h]; rfl
  | nilFunc _ => simp only [dynType] at h; rw [← Option.some.inj h]; rfl
  | func _ _ _ => simp only [dynType] at h; rw [← Option.some.inj h]; rfl

theorem typeAssert_ok (x : Value) (T : GoType) :
    (typeAssert x T).2 = true ↔
      ∃ D, dynType x = some D ∧
        ((GoType.interfaceMethods T = none ∧ D = T) ∨
          (∃ ms, GoType.interfaceMethods T = some ms ∧ ∀ m ∈ ms, m ∈ methodSet D)) := by
  simp only [typeAssert]
  cases hT : GoType.interfaceMethods T with
  | none =>
    by_cases hx : dynType x = some T
    · simp [hx]
    · simp only [if_neg hx]
      constructor
      · intro h
        exact absurd h (by simp)
      · rintro ⟨D, hD, ⟨_, hDT⟩ | ⟨ms, hms, _⟩⟩
        · exact absurd (hDT ▸ hD) hx
        · exact absurd hms (by simp)
  | some ms =>
    cases hx : dynType x with
    | none => simp
    | some D =>
      by_cases himp : implements D ms = true
      · simp only [if_pos himp, true_iff]
        refine ⟨D, rfl, Or.inr ⟨ms, rfl, ?_⟩⟩
        simpa [implements, List.all_eq_true] using himp
      · simp only [if_neg himp]
        constructor
        · intro h
          exact absurd h (by simp)
        · rintro ⟨D2, hD2, ⟨h0, _⟩ | ⟨ms2, hms2, hall⟩⟩
          · exact absurd h0 (by simp)
          · have h1 : D2 = D := (Option.some.inj hD2).symm
            have h2 : ms2 = ms := (Option.some.inj hms2).symm
            subst h1
            subst h2
            exact absurd (by simpa [implements, List.all_eq_true] using hall) himp

theorem typeAssert_value (x : Value) (T : GoType) (h : (typeAssert x T).2 = true) :
    (typeAssert x T).1 = x := by
  simp only [typeAssert] at h ⊢
  split
  · rename_i ms hT
    simp only [hT] at h
    split
    · rename_i hx
      simp [hx] at h
    · rename_i D hx
      simp only [hx] at h
      split
      · rfl
      · rename_i himp
        simp [himp] at h
  · rename_i hT
    simp only [hT] at h
    split
    · rfl
    · rename_i hx
      simp [hx] at h

theorem ContextValue_eq (T : GoType) (c : Ctx) (key : Value) :
    ContextValue T (Context.of c) key =
      if (typeAssert (c.value key) T).2 = true then some (c.value key, true)
      else some (GoType.zero T, false) := by
  simp only [ContextValue, ctxValue]
  by_cases h : (typeAssert (c.value key) T).2 = true
  · simp [h, typeAssert_value _ _ h]
  · simp [h]

theorem InjectValue_same_key (T : GoType) (rt : Runtime) (s : State) (stack stack2 : CallStack)
    (key : Value) (h : getInjectKey rt s stack2 = getInjectKey rt s stack) :
    InjectValue T rt s stack2 key = InjectValue T rt s stack key := by
  simp only [InjectValue, inject_same_key rt s stack stack2 h]

/-- C14, the claim as stated fails for the interface type `any`: the context holds int64 42
under the key, whose dynamic type is not `any`, and `ContextValue[any]` returns 42 with
`ok = true`. -/
theorem ContextValue_any_accepts_int64 :
    demoCtx ≠ Context.nil ∧
    ctxValue demoCtx (Value.string "question") = some (Value.int64 42) ∧
    dynType (Value.int64 42) ≠ some GoType.any ∧
    ContextValue GoType.any demoCtx (Value.string "question") = some (Value.int64 42, true) ∧
    ContextValue GoType.any demoCtx (Value.string "question") ≠
      some (GoType.zero GoType.any, false) := by
  decide

/-- C14, amended: for a non-nil `ctx`, `ContextValue[T](ctx, key)` returns `v` and `true`
exactly when `ctx` holds under `key` a value `v` that has a dynamic type (it is not the nil
interface) and that type is `T`, for a `T` that is not an interface type, or has every method
of `T`, for an interface type `T`; otherwise it returns the zero value of `T` and `false`, as
it does for a stored int64 when a string is asked for.  The function has no access to the
package state. -/
theorem ContextValue_typed_lookup (T : GoType) (ctx : Context) (key : Value)
    (hctx : ctx ≠ Context.nil) :
    (∀ v, ContextValue T ctx key = some (v, true) ↔
      (ctxValue ctx key = some v ∧ ∃ D, dynType v = some D ∧
        ((GoType.interfaceMethods T = none ∧ D = T) ∨
          (∃ ms, GoType.interfaceMethods T = some ms ∧ ∀ m ∈ ms, m ∈ methodSet D)))) ∧
    ((¬ ∃ v D, ctxValue ctx key = some v ∧ dynType v = some D ∧
        ((GoType.interfaceMethods T = none ∧ D = T) ∨
          (∃ ms, GoType.interfaceMethods T = some ms ∧ ∀ m ∈ ms, m ∈ methodSet D))) →
      ContextValue T ctx key = some (GoType.zero T, false)) ∧
    (∀ n, ctxValue ctx key = some (Value.int64 n) →
      ContextValue GoType.string ctx key = some (Value.string "", false)) := by
  cases ctx with
  | nil => exact absurd rfl hctx
  | of c =>
    refine ⟨?_, ?_, ?_⟩
    · intro v
      rw [ContextValue_eq]
      by_cases h : (typeAssert (c.value key) T).2 = true
      · rw [if_pos h]
        simp only [ctxValue, Option.some.injEq, Prod.mk.injEq, and_true]
        constructor
        · intro hv
          subst hv
          exact ⟨rfl, (typeAssert_ok _ _).mp h⟩
        · intro hv
          exact hv.1
      · rw [if_neg h]
        simp only [ctxValue, Option.some.injEq, Prod.mk.injEq]
        constructor
        · intro hv
          exact absurd hv.2 (by simp)
        · rintro ⟨hv, hty⟩
          subst hv
          exact absurd ((typeAssert_ok _ _).mpr hty) h
    · intro hno
      rw [ContextValue_eq]
      have h : ¬ (typeAssert (c.value key) T).2 = true := by
        intro h
        obtain ⟨D, hD, hty⟩ := (typeAssert_ok _ _).mp h
        exact hno ⟨c.value key, D, rfl, hD, hty⟩
      simp [h]
    · intro n hn
      simp only [ctxValue, Option.some.injEq] at hn
      rw [ContextValue_eq, hn]
      rfl

/-- C15: `Inject` and `InjectValue` leave the package state exactly as it was, so a second call
whose calling frame resolves to the same key returns the same results: the same context or
value, the same `ok` and the same handle.  `InjectValue` returns unless the entry of the caller
is a nil context. -/
theorem retrieval_is_a_pure_read (T : GoType) (rt : Runtime) (s : State)
    (stack stack2 : CallStack) (key : Value)
    (hsame : getInjectKey rt s stack2 = getInjectKey rt s stack) :
    (Inject rt s stack).2 = s ∧
    Inject rt (Inject rt s stack).2 stack2 = Inject rt s stack ∧
    (∀ r, InjectValue T rt s stack key = some r →
      r.2 = s ∧ InjectValue T rt r.2 stack2 key = some r) ∧
    (s.contextMap (getInjectKey rt s stack) ≠ some Context.nil →
      ∃ r, InjectValue T rt s stack key = some r) := by
  have hst : (Inject rt s stack).2 = s := inject_state rt s stack
  refine ⟨hst, ?_, ?_, ?_⟩
  · rw [hst]
    exact inject_same_key rt s stack stack2 hsame
  · intro r hr
    have hr2 : r.2 = s := by
      simp only [InjectValue] at hr
      split at hr
      · rw [← Option.some.inj hr]
        exact inject_state rt s stack
      · split at hr
        · exact absurd hr (by simp)
        · rw [← Option.some.inj hr]
          exact inject_state rt s stack
    refine ⟨hr2, ?_⟩
    rw [hr2, InjectValue_same_key T rt s stack stack2 key hsame]
    exact hr
  · intro hnil
    by_cases hkey : getInjectKey rt s stack = ""
    · exact ⟨((GoType.zero T, false, emptyFunc), s),
        by simp [InjectValue, inject_failed rt s stack hkey]⟩
    · cases hentry : s.contextMap (getInjectKey rt s stack) with
      | none =>
        exact ⟨((GoType.zero T, false, emptyFunc), s),
          by simp [InjectValue, inject_absent rt s stack hentry]⟩
      | some ctxPtr =>
        cases ctxPtr with
        | nil => exact absurd hentry hnil
        | of c =>
          obtain ⟨v, ok, hv⟩ := ContextValue_of T c key
          exact ⟨((v, ok, fun s1 => freeFunc s1 (getInjectKey rt s stack)), s),
            by simp [InjectValue, inject_present rt s stack _ hkey hentry, hv]⟩

/-! ## Lifecycle -/

theorem Provide_nil_ctx_state (rt : Runtime) (s : State) (first : Value) (rest : List Value) :
    (Provide rt s Context.nil first rest).2 = s := by
  simp [Provide]

theorem freeFunc_setContext (s : State) (k : String) (ctx : Context)
    (habsent : s.contextMap k = none) : freeFunc (setContext s k ctx) k = s := by
  apply state_ext
  · intro k2
    simp only [freeFunc, setContext]
    split
    · rename_i h
      rw [h, habsent]
    · rfl
  · rfl

theorem freeFunc_twice (s : State) (k : String) : freeFunc (freeFunc s k) k = freeFunc s k := by
  apply state_ext
  · intro k2
    simp only [freeFunc]
    split <;> rfl
  · rfl

theorem provideLoop_entry (rt : Runtime) (ctx : Context) (fs : List Value) (errs : List Error)
    (s : State) (k : String) :
    (provideLoop rt ctx fs (errs, s)).2.contextMap k = some ctx ∨
      (provideLoop rt ctx fs (errs, s)).2.contextMap k = s.contextMap k := by
  induction fs generalizing errs s with
  | nil => right; rfl
  | cons g gs ih =>
    by_cases hg : reflect_Kind g = Kind.func
    · simp only [provideLoop, getFuncKey_func rt g hg]
      rcases ih errs (setContext s (getKey rt (reflect_Pointer g)) ctx) with h | h
      · left; exact h
      · rw [h]
        simp only [setContext]
        split
        · left; rfl
        · right; rfl
    · simp only [provideLoop, getFuncKey_not_func rt g hg]
      exact ih _ _

theorem FreeContext_entry (rt : Runtime) (s : State) (fs : List Value) (k : String) :
    (FreeContext rt s fs).contextMap k = none ∨
      (FreeContext rt s fs).contextMap k = s.contextMap k := by
  induction fs generalizing s with
  | nil => right; rfl
  | cons g gs ih =>
    simp only [FreeContext]
    rcases ih (freeFunc s (getFuncKey rt g).1) with h | h
    · left; exact h
    · rw [h]
      simp only [freeFunc]
      split
      · left; rfl
      · right; rfl

theorem inject_handle (rt : Runtime) (t : State) (stack : CallStack) :
    (inject rt t stack).1.2.2 = emptyFunc ∨
      (inject rt t stack).1.2.2 = (fun s1 => freeFunc s1 (getInjectKey rt t stack)) := by
  simp only [inject]
  split
  · left; rfl
  · split
    · left; rfl
    · right; rfl

theorem InjectValue_handle (T : GoType) (rt : Runtime) (t : State) (stack : CallStack)
    (key : Value) (r : (Value × Bool × (State → State)) × State)
    (hr : InjectValue T rt t stack key = some r) : r.1.2.2 = (inject rt t stack).1.2.2 := by
  simp only [InjectValue] at hr
  split at hr
  · rw [← Option.some.inj hr]
  · split at hr
    · exact absurd hr (by simp)
    · rw [← Option.some.inj hr]

/-- C16: freed equals never provided.  When the identity of the function value `f` has no entry
in `s` and `ctx` is not nil, `Provide(ctx, f)` followed by `FreeContext(f)` gives back `s`, and
so does `Provide(ctx, f)` followed by the handle of an `Inject` whose calling frame resolves to
the identity of `f`; every later `Inject` then returns what it returns in `s`. -/
theorem freed_equals_never_provided (rt : Runtime) (s : State) (ctx : Context) (f : Value)
    (hctx : ctx ≠ Context.nil) (hf : reflect_Kind f = Kind.func)
    (habsent : s.contextMap (getFuncKey rt f).1 = none) :
    FreeContext rt (Provide rt s ctx f []).2 [f] = s ∧
    (∀ stack2, Inject rt (FreeContext rt (Provide rt s ctx f []).2 [f]) stack2 =
      Inject rt s stack2) ∧
    (∀ stack, getInjectKey rt (Provide rt s ctx f []).2 stack = (getFuncKey rt f).1 →
      (getFuncKey rt f).1 ≠ "" →
      (Inject rt (Provide rt s ctx f []).2 stack).1.2.2
          (Inject rt (Provide rt s ctx f []).2 stack).2 = s ∧
      ∀ stack2, Inject rt ((Inject rt (Provide rt s ctx f []).2 stack).1.2.2
          (Inject rt (Provide rt s ctx f []).2 stack).2) stack2 = Inject rt s stack2) := by
  have hP := Provide_single rt s ctx f hctx hf
  have hfree : FreeContext rt (Provide rt s ctx f []).2 [f] = s := by
    rw [hP]
    simp only [FreeContext]
    exact freeFunc_setContext s _ ctx habsent
  refine ⟨hfree, ?_, ?_⟩
  · intro stack2
    rw [hfree]
  · intro stack hF hres
    have hstored : (Provide rt s ctx f []).2.contextMap
        (getInjectKey rt (Provide rt s ctx f []).2 stack) = some ctx := by
      rw [hF, hP]
      simp [setContext]
    have h := inject_present rt _ stack ctx (by rw [hF]; exact hres) hstored
    rw [hF] at h
    have hI : Inject rt (Provide rt s ctx f []).2 stack =
        ((ctx, true, fun s1 => freeFunc s1 (getFuncKey rt f).1), (Provide rt s ctx f []).2) := h
    have hback : (Inject rt (Provide rt s ctx f []).2 stack).1.2.2
        (Inject rt (Provide rt s ctx f []).2 stack).2 = s := by
      rw [hI, hP]
      exact freeFunc_setContext s _ ctx habsent
    refine ⟨hback, ?_⟩
    intro stack2
    rw [hback]

/-- C17: the identity depends on the code pointer only.  Two function values with the same code
pointer (and whatever captured state) get the same result from `getFuncKey`; so after
`Provide(ctx, f1)` an `Inject` whose calling frame resolves to the identity of `f2` returns
`ctx` and `true`, and `FreeContext(f2)` removes the entry stored for `f1`. -/
theorem identity_depends_on_code_only (rt : Runtime) (s : State) (ctx : Context)
    (f1 f2 : Value) (stack : CallStack)
    (h1 : reflect_Kind f1 = Kind.func) (h2 : reflect_Kind f2 = Kind.func)
    (hcode : reflect_Pointer f1 = reflect_Pointer f2) (hctx : ctx ≠ Context.nil)
    (hF : getInjectKey rt (Provide rt s ctx f1 []).2 stack = (getFuncKey rt f2).1)
    (hres : (getFuncKey rt f2).1 ≠ "") :
    getFuncKey rt f1 = getFuncKey rt f2 ∧
    (Provide rt s ctx f1 []).2.contextMap (getFuncKey rt f1).1 = some ctx ∧
    Inject rt (Provide rt s ctx f1 []).2 stack =
      ((ctx, true, fun s1 => freeFunc s1 (getFuncKey rt f2).1), (Provide rt s ctx f1 []).2) ∧
    (FreeContext rt (Provide rt s ctx f1 []).2 [f2]).contextMap (getFuncKey rt f1).1 = none := by
  have hkey : getFuncKey rt f1 = getFuncKey rt f2 := by
    rw [getFuncKey_func rt f1 h1, getFuncKey_func rt f2 h2, hcode]
  have hP := Provide_single rt s ctx f1 hctx h1
  have hstored : (Provide rt s ctx f1 []).2.contextMap (getFuncKey rt f1).1 = some ctx := by
    rw [hP]
    simp [setContext]
  refine ⟨hkey, hstored, ?_, ?_⟩
  · have h := inject_present rt _ stack ctx (by rw [hF]; exact hres)
      (by rw [hF, ← hkey]; exact hstored)
    rw [hF] at h
    exact h
  · exact FreeContext_freed rt _ [f2] _ ⟨f2, List.mem_singleton.mpr rfl, by rw [hkey]⟩

/-- C18: in every state reached from an empty registry by `Provide`, `FreeContext` and release
handles, no stored context is nil, and so the context that `Inject` returns is not nil, for
every caller and whether `ok` is true or false. -/
theorem reachable_contexts_are_not_nil (rt : Runtime) (s : State) (hreach : Reachable rt s) :
    (∀ k c, s.contextMap k = some c → c ≠ Context.nil) ∧
    (∀ stack, (Inject rt s stack).1.1 ≠ Context.nil) := by
  have hinv : ∀ k c, s.contextMap k = some c → c ≠ Context.nil := by
    have hfreeStep : ∀ (u : State) (key : String),
        (∀ k c, u.contextMap k = some c → c ≠ Context.nil) →
        ∀ k c, (freeFunc u key).contextMap k = some c → c ≠ Context.nil := by
      intro u key hu k c hc
      simp only [freeFunc] at hc
      split at hc
      · exact absurd hc (by simp)
      · exact hu k c hc
    have hhandle : ∀ (t u : State) (stack : CallStack),
        (∀ k c, u.contextMap k = some c → c ≠ Context.nil) →
        ∀ k c, ((inject rt t stack).1.2.2 u).contextMap k = some c → c ≠ Context.nil := by
      intro t u stack hu k c hc
      rcases inject_handle rt t stack with h | h
      · rw [h] at hc
        exact hu k c hc
      · rw [h] at hc
        exact hfreeStep u _ hu k c hc
    induction hreach with
    | empty rc =>
      intro k c hc
      exact absurd hc (by simp)
    | provide u ctx first rest _ ih =>
      intro k c hc
      by_cases hctx : ctx = Context.nil
      · subst hctx
        rw [(Provide_nil_ctx_state rt u first rest)] at hc
        exact ih k c hc
      · rw [Provide_state rt u ctx first rest hctx] at hc
        rcases provideLoop_entry rt ctx (first :: rest) [] u k with h | h
        · rw [h] at hc
          rw [← Option.some.inj hc]
          exact hctx
        · rw [h] at hc
          exact ih k c hc
    | freeContext u fs _ ih =>
      intro k c hc
      rcases FreeContext_entry rt u fs k with h | h
      · rw [h] at hc
        exact absurd hc (by simp)
      · rw [h] at hc
        exact ih k c hc
    | releaseInject u t stack _ ih => exact hhandle t u stack ih
    | releaseInjectValue u t stack T key r _ hr ih =>
      rw [InjectValue_handle T rt t stack key r hr]
      exact hhandle t u stack ih
  refine ⟨hinv, ?_⟩
  intro stack
  by_cases hkey : getInjectKey rt s stack = ""
  · rw [show Inject rt s stack = _ from inject_failed rt s stack hkey]
    simp [emptyContext]
  · cases hentry : s.contextMap (getInjectKey rt s stack) with
    | none =>
      rw [show Inject rt s stack = _ from inject_absent rt s stack hentry]
      simp [emptyContext]
    | some c =>
      rw [show Inject rt s stack = _ from inject_present rt s stack c hkey hentry]
      exact hinv _ c hentry

/-- C19: a release handle is bound to the key.  Let `h` be the handle of an `Inject` whose
calling frame resolves to `k` (a non-empty key) while the entry of `k` is `ctx1`, and let `f` be
a function value with identity `k`.  After `Provide(ctx2, f)`, directly or after
`FreeContext(f)`, the entry of `k` is `ctx2`; running `h` then removes it, a following `Inject`
from `k` returns the background context, `false` and `emptyFunc`, and running `h` once more
changes nothing. -/
theorem release_handle_bound_to_identity (rt : Runtime) (s : State) (ctx1 ctx2 : Context)
    (f : Value) (stack : CallStack) (k : String) (h : State → State)
    (hk : getInjectKey rt s stack = k) (hres : k ≠ "") (hentry : s.contextMap k = some ctx1)
    (hh : h = (Inject rt s stack).1.2.2)
    (hf : reflect_Kind f = Kind.func) (hfk : (getFuncKey rt f).1 = k)
    (hctx2 : ctx2 ≠ Context.nil) :
    ((Provide rt s ctx2 f []).2.contextMap k = some ctx2 ∧
      (h (Provide rt s ctx2 f []).2).contextMap k = none ∧
      Inject rt (h (Provide rt s ctx2 f []).2) stack =
        ((emptyContext, false, emptyFunc), h (Provide rt s ctx2 f []).2) ∧
      h (h (Provide rt s ctx2 f []).2) = h (Provide rt s ctx2 f []).2) ∧
    ((Provide rt (FreeContext rt s [f]) ctx2 f []).2.contextMap k = some ctx2 ∧
      (h (Provide rt (FreeContext rt s [f]) ctx2 f []).2).contextMap k = none ∧
      Inject rt (h (Provide rt (FreeContext rt s [f]) ctx2 f []).2) stack =
        ((emptyContext, false, emptyFunc), h (Provide rt (FreeContext rt s [f]) ctx2 f []).2) ∧
      h (h (Provide rt (FreeContext rt s [f]) ctx2 f []).2) =
        h (Provide rt (FreeContext rt s [f]) ctx2 f []).2) := by
  have hI := inject_present rt s stack ctx1 (by rw [hk]; exact hres) (by rw [hk]; exact hentry)
  rw [hk] at hI
  have hh2 : h = fun s1 => freeFunc s1 k := by
    rw [hh]
    show (inject rt s stack).1.2.2 = _
    rw [hI]
  have hgen : ∀ t : State, t.runtimeCaller = s.runtimeCaller →
      (Provide rt t ctx2 f []).2.contextMap k = some ctx2 ∧
      (h (Provide rt t ctx2 f []).2).contextMap k = none ∧
      Inject rt (h (Provide rt t ctx2 f []).2) stack =
        ((emptyContext, false, emptyFunc), h (Provide rt t ctx2 f []).2) ∧
      h (h (Provide rt t ctx2 f []).2) = h (Provide rt t ctx2 f []).2 := by
    intro t ht
    subst hh2
    refine ⟨?_, freeFunc_cleared _ k, ?_, freeFunc_twice _ k⟩
    · rw [Provide_single rt t ctx2 f hctx2 hf, hfk]
      simp [setContext]
    · have hkey : getInjectKey rt (freeFunc (Provide rt t ctx2 f []).2 k) stack = k := by
        rw [← hk]
        apply getInjectKey_congr
        show (Provide rt t ctx2 f []).2.runtimeCaller = s.runtimeCaller
        rw [Provide_runtimeCaller, ht]
      apply inject_absent
      rw [hkey]
      exact freeFunc_cleared _ k
  exact ⟨hgen s rfl, hgen (FreeContext rt s [f]) (FreeContext_runtimeCaller rt s [f])⟩

/-! ## The theorems at concrete inputs -/

theorem Inject_after_Provide_witness :
    (Inject demoRuntime (Provide demoRuntime State.init demoCtx (Value.func "func()" 1 0) []).2
      (stackFrom 1)).1.1 = demoCtx ∧
    (Inject demoRuntime (Provide demoRuntime State.init demoCtx (Value.func "func()" 1 0) []).2
      (stackFrom 1)).1.2.1 = true ∧
    (Inject demoRuntime (Provide demoRuntime State.init demoCtx (Value.func "func()" 1 0) []).2
      (stackFrom 2)).1.1 = emptyContext ∧
    (Inject demoRuntime (Provide demoRuntime State.init demoCtx (Value.func "func()" 1 0) []).2
      (stackFrom 2)).1.2.1 = false := by
  obtain ⟨hA, hB⟩ := Inject_after_Provide demoRuntime State.init demoCtx (Value.func "func()" 1 0)
    (stackFrom 1) (stackFrom 2) (by decide) (by decide) (by decide) (by decide) (by decide)
    (by decide)
  rw [hA, hB]
  exact ⟨rfl, rfl, rfl, rfl⟩

theorem Provide_not_a_function_witness :
    reflect_Kind (Value.int 2) ≠ Kind.func ∧
    (Provide demoRuntime demoState demoCtx (Value.int 2) []).1 =
      some (Error.Join [Error.Errorf_notAFunction (Value.int 2)]) ∧
    (Provide demoRuntime demoState demoCtx (Value.int 2) []).2 = demoState :=
  ⟨by decide,
    (Provide_not_a_function demoRuntime demoState demoCtx (Value.int 2) (by decide)
      (by decide)).2⟩

theorem Provide_partial_success_witness :
    (Provide demoRuntime State.init demoCtx (Value.func "func()" 1 0)
      [Value.int 2, Value.func "func()" 3 7]).2.contextMap "main.receiver" = some demoCtx ∧
    (Provide demoRuntime State.init demoCtx (Value.func "func()" 1 0)
      [Value.int 2, Value.func "func()" 3 7]).2.contextMap "main.receiver2" = some demoCtx ∧
    (Provide demoRuntime State.init demoCtx (Value.func "func()" 1 0)
      [Value.int 2, Value.func "func()" 3 7]).2.contextMap "main.intermediate" =
        State.init.contextMap "main.intermediate" := by
  obtain ⟨hA, hB, _⟩ := Provide_partial_success demoRuntime State.init demoCtx (Value.func "func()" 1 0)
    [Value.int 2, Value.func "func()" 3 7] (by decide)
  refine ⟨hA (Value.func "func()" 1 0) (by simp) (by decide), hA (Value.func "func()" 3 7) (by simp) (by decide),
    hB "main.intermediate" ?_⟩
  intro f hf hk
  simp only [List.mem_cons, List.mem_singleton, List.not_mem_nil, or_false] at hf
  rcases hf with h | h | h <;> subst h
  · decide
  · exact absurd hk (by decide)
  · decide

theorem Provide_error_aggregate_witness :
    (Provide demoRuntime State.init demoCtx (Value.int 2)
      [Value.func "func()" 1 0, Value.string "x"]).1 =
      some (Error.Join [Error.Errorf_notAFunction (Value.int 2),
        Error.Errorf_notAFunction (Value.string "x")]) :=
  (Provide_error_aggregate demoRuntime State.init demoCtx (Value.int 2)
    [Value.func "func()" 1 0, Value.string "x"] (by decide)).2 ⟨Value.int 2, by simp, by decide⟩

theorem Provide_last_write_wins_witness :
    (Provide demoRuntime (Provide demoRuntime State.init (Context.of Ctx.background)
      (Value.func "func()" 1 0) []).2 demoCtx (Value.func "func()" 1 0) []).2 =
      (Provide demoRuntime State.init demoCtx (Value.func "func()" 1 0) []).2 ∧
    (Provide demoRuntime (Provide demoRuntime State.init (Context.of Ctx.background)
      (Value.func "func()" 1 0) []).2 demoCtx (Value.func "func()" 1 0) []).2.contextMap "main.receiver" =
      some demoCtx ∧
    (Inject demoRuntime (Provide demoRuntime (Provide demoRuntime State.init
      (Context.of Ctx.background) (Value.func "func()" 1 0) []).2 demoCtx (Value.func "func()" 1 0) []).2
      (stackFrom 1)).1.1 = demoCtx := by
  obtain ⟨hA, hB, hC⟩ := Provide_last_write_wins demoRuntime State.init
    (Context.of Ctx.background) demoCtx (Value.func "func()" 1 0) (stackFrom 1) (by decide) (by decide)
    (by decide) (by decide) (by decide)
  exact ⟨hA, hB, by rw [hC]⟩

theorem Inject_release_then_absent_witness :
    demoState.contextMap "main.receiver" = some demoCtx ∧
    (Inject demoRuntime demoState (stackFrom 1)).1.1 = demoCtx ∧
    (Inject demoRuntime demoState (stackFrom 1)).1.2.1 = true ∧
    (Inject demoRuntime ((Inject demoRuntime demoState (stackFrom 1)).1.2.2
      (Inject demoRuntime demoState (stackFrom 1)).2) (stackFrom 1)).1.1 = emptyContext ∧
    (Inject demoRuntime ((Inject demoRuntime demoState (stackFrom 1)).1.2.2
      (Inject demoRuntime demoState (stackFrom 1)).2) (stackFrom 1)).1.2.1 = false := by
  obtain ⟨hA, hB, _, hD, _⟩ := Inject_release_then_absent demoRuntime demoState (stackFrom 1)
    (stackFrom 1) "main.receiver" demoCtx (by decide) (by decide) (by decide) (by decide)
  exact ⟨by decide, hA, hB, by rw [hD], by rw [hD]⟩

theorem FreeContext_removes_witness :
    reflect_Kind (Value.func "func()" 1 0) = Kind.func ∧
    (FreeContext demoRuntime demoState [Value.func "func()" 1 0]).contextMap "main.receiver" = none ∧
    (FreeContext demoRuntime demoState [Value.func "func()" 1 0]).contextMap "main.receiver2" =
      demoState.contextMap "main.receiver2" ∧
    FreeContext demoRuntime (FreeContext demoRuntime demoState [Value.func "func()" 1 0])
      [Value.func "func()" 1 0] = FreeContext demoRuntime demoState [Value.func "func()" 1 0] := by
  obtain ⟨hA, _, hC, _, _, _, hG⟩ := FreeContext_removes demoRuntime demoState [Value.func "func()" 1 0]
    (by simp [reflect_Kind])
  refine ⟨by decide, hA (Value.func "func()" 1 0) (by simp), hC "main.receiver2" ?_, hG⟩
  intro f hf
  rw [List.mem_singleton] at hf
  subst hf
  decide

theorem release_handle_removes_one_entry_witness :
    demoState.contextMap "main.receiver" = some demoCtx ∧
    demoState.contextMap "main.receiver2" = some demoCtx ∧
    ((Inject demoRuntime demoState (stackFrom 1)).1.2.2
      (Inject demoRuntime demoState (stackFrom 1)).2).contextMap "main.receiver" = none ∧
    ((Inject demoRuntime demoState (stackFrom 1)).1.2.2
      (Inject demoRuntime demoState (stackFrom 1)).2).contextMap "main.receiver2" =
        some demoCtx ∧
    (Inject demoRuntime ((Inject demoRuntime demoState (stackFrom 1)).1.2.2
      (Inject demoRuntime demoState (stackFrom 1)).2) (stackFrom 3)).1.2.1 = true := by
  obtain ⟨_, hB, hC, hD, _⟩ := release_handle_removes_one_entry demoRuntime demoState
    (stackFrom 1) (stackFrom 3) "main.receiver" "main.receiver2" demoCtx demoCtx GoType.int64
    (Value.string "question") (by decide) (by decide) (by decide) (by decide) (by decide)
    (by decide) (by decide)
  exact ⟨by decide, by decide, (hB _).1, hC, by rw [hD]⟩

theorem Inject_runtimeCaller_fails_witness :
    (StubRuntimeCaller demoState).contextMap "main.receiver" = some demoCtx ∧
    (StubRuntimeCaller demoState).runtimeCaller (stackFrom 1) 3 = none ∧
    (Inject demoRuntime (StubRuntimeCaller demoState) (stackFrom 1)).1.1 = emptyContext ∧
    (Inject demoRuntime (StubRuntimeCaller demoState) (stackFrom 1)).1.2.1 = false ∧
    (Inject demoRuntime (StubRuntimeCaller demoState) (stackFrom 1)).2 =
      StubRuntimeCaller demoState := by
  obtain ⟨hA, _⟩ := Inject_runtimeCaller_fails demoRuntime (StubRuntimeCaller demoState)
    (stackFrom 1) (by decide)
  rw [hA]
  exact ⟨by decide, by decide, rfl, rfl, rfl⟩

theorem InjectValue_agrees_with_ContextValue_witness :
    demoState.contextMap "main.receiver" = some demoCtx ∧
    valueOk (InjectValue GoType.int64 demoRuntime demoState (stackFrom 1)
      (Value.string "question")) = some (Value.int64 42, true) ∧
    valueOk (InjectValue GoType.int64 demoRuntime (freeFunc demoState "main.receiver")
      (stackFrom 1) (Value.string "question")) = some (Value.int64 0, false) := by
  obtain ⟨_, _, _, hD⟩ := InjectValue_agrees_with_ContextValue GoType.int64 demoRuntime
    demoState (stackFrom 1) "main.receiver" demoCtx (Value.string "question") (by decide)
    (by decide) (by decide)
  obtain ⟨hE, hF⟩ := hD (by decide)
  rw [hE, hF]
  exact ⟨by decide, rfl, rfl⟩

theorem ContextValue_typed_lookup_witness :
    demoCtx ≠ Context.nil ∧
    ContextValue GoType.int64 demoCtx (Value.string "question") =
      some (Value.int64 42, true) ∧
    ContextValue GoType.string demoCtx (Value.string "question") =
      some (Value.string "", false) ∧
    ContextValue GoType.int64 demoCtx (Value.string "answer") = some (Value.int64 0, false) ∧
    ContextValue GoType.error demoTypedCtx (Value.string "err") = some (demoErr, true) ∧
    ContextValue (GoType.func "func()") demoTypedCtx (Value.string "handler") =
      some (Value.nilFunc "func()", false) := by
  obtain ⟨hA, _, hC⟩ := ContextValue_typed_lookup GoType.int64 demoCtx (Value.string "question")
    (by decide)
  obtain ⟨_, hB2, _⟩ := ContextValue_typed_lookup GoType.int64 demoCtx (Value.string "answer")
    (by decide)
  obtain ⟨hE, _, _⟩ := ContextValue_typed_lookup GoType.error demoTypedCtx (Value.string "err")
    (by decide)
  obtain ⟨_, hF, _⟩ := ContextValue_typed_lookup (GoType.func "func()") demoTypedCtx
    (Value.string "handler") (by decide)
  refine ⟨by decide,
    (hA (Value.int64 42)).mpr ⟨by decide, GoType.int64, rfl, Or.inl ⟨rfl, rfl⟩⟩,
    hC 42 (by decide), hB2 ?_,
    (hE demoErr).mpr ⟨by decide, GoType.defined "main.myErr" GoType.string ["Error() string"],
      rfl, Or.inr ⟨["Error() string"], rfl, by decide⟩⟩,
    hF ?_⟩
  · rintro ⟨v, D, hv, hD, _⟩
    have h0 : ctxValue demoCtx (Value.string "answer") = some Value.nil := by decide
    rw [h0] at hv
    rw [← Option.some.inj hv] at hD
    exact absurd hD (by simp [dynType])
  · rintro ⟨v, D, hv, hD, hty⟩
    have h0 : ctxValue demoTypedCtx (Value.string "handler") =
        some (Value.func "func(int)" 2 0) := by decide
    rw [h0] at hv
    rw [← Option.some.inj hv] at hD
    have hD2 : D = GoType.func "func(int)" := (Option.some.inj hD).symm
    subst hD2
    rcases hty with ⟨_, h1⟩ | ⟨ms, h1, _⟩
    · exact absurd h1 (by decide)
    · exact absurd h1 (by simp [GoType.interfaceMethods])

theorem retrieval_is_a_pure_read_witness :
    (Inject demoRuntime demoState (stackFrom 1)).2 = demoState ∧
    Inject demoRuntime (Inject demoRuntime demoState (stackFrom 1)).2 (stackFrom 1) =
      Inject demoRuntime demoState (stackFrom 1) := by
  obtain ⟨hA, hB, _⟩ := retrieval_is_a_pure_read GoType.int64 demoRuntime demoState
    (stackFrom 1) (stackFrom 1) (Value.string "question") rfl
  exact ⟨hA, hB⟩

theorem freed_equals_never_provided_witness :
    State.init.contextMap "main.receiver" = none ∧
    FreeContext demoRuntime (Provide demoRuntime State.init demoCtx (Value.func "func()" 1 0) []).2
      [Value.func "func()" 1 0] = State.init ∧
    (Inject demoRuntime (Provide demoRuntime State.init demoCtx (Value.func "func()" 1 0) []).2
        (stackFrom 1)).1.2.2
      (Inject demoRuntime (Provide demoRuntime State.init demoCtx (Value.func "func()" 1 0) []).2
        (stackFrom 1)).2 = State.init := by
  obtain ⟨hA, _, hC⟩ := freed_equals_never_provided demoRuntime State.init demoCtx
    (Value.func "func()" 1 0) (by decide) (by decide) (by decide)
  exact ⟨by decide, hA, (hC (stackFrom 1) (by decide) (by decide)).1⟩

theorem identity_depends_on_code_only_witness :
    Value.func "func()" 1 0 ≠ Value.func "func()" 1 5 ∧
    reflect_Pointer (Value.func "func()" 1 0) = reflect_Pointer (Value.func "func()" 1 5) ∧
    getFuncKey demoRuntime (Value.func "func()" 1 0) = getFuncKey demoRuntime (Value.func "func()" 1 5) ∧
    (Inject demoRuntime (Provide demoRuntime State.init demoCtx (Value.func "func()" 1 0) []).2
      (stackFrom 1)).1.1 = demoCtx ∧
    (FreeContext demoRuntime (Provide demoRuntime State.init demoCtx (Value.func "func()" 1 0) []).2
      [Value.func "func()" 1 5]).contextMap "main.receiver" = none := by
  obtain ⟨hA, _, hC, hD⟩ := identity_depends_on_code_only demoRuntime State.init demoCtx
    (Value.func "func()" 1 0) (Value.func "func()" 1 5) (stackFrom 1) (by decide) (by decide) (by decide)
    (by decide) (by decide) (by decide)
  exact ⟨by decide, by decide, hA, by rw [hC], hD⟩

theorem reachable_contexts_are_not_nil_witness :
    Reachable demoRuntime demoState ∧
    demoState.contextMap "main.receiver" = some demoCtx ∧
    (Inject demoRuntime demoState (stackFrom 1)).1.1 ≠ Context.nil ∧
    (Inject demoRuntime demoState (stackFrom 2)).1.1 ≠ Context.nil := by
  have hreach : Reachable demoRuntime demoState :=
    Reachable.provide State.init demoCtx (Value.func "func()" 1 0) [Value.func "func()" 3 7]
      (Reachable.empty runtime_Caller)
  obtain ⟨_, hB⟩ := reachable_contexts_are_not_nil demoRuntime demoState hreach
  exact ⟨hreach, by decide, hB (stackFrom 1), hB (stackFrom 2)⟩

theorem release_handle_bound_to_identity_witness :
    demoState.contextMap "main.receiver" = some demoCtx ∧
    (Provide demoRuntime demoState (Context.of Ctx.background) (Value.func "func()" 1 0)
      []).2.contextMap "main.receiver" = some (Context.of Ctx.background) ∧
    ((Inject demoRuntime demoState (stackFrom 1)).1.2.2
      (Provide demoRuntime demoState (Context.of Ctx.background) (Value.func "func()" 1 0)
        []).2).contextMap "main.receiver" = none ∧
    (Inject demoRuntime ((Inject demoRuntime demoState (stackFrom 1)).1.2.2
      (Provide demoRuntime demoState (Context.of Ctx.background) (Value.func "func()" 1 0) []).2)
      (stackFrom 1)).1.2.1 = false := by
  obtain ⟨⟨hA, hB, hC, _⟩, _⟩ := release_handle_bound_to_identity demoRuntime demoState demoCtx
    (Context.of Ctx.background) (Value.func "func()" 1 0) (stackFrom 1) "main.receiver"
    (Inject demoRuntime demoState (stackFrom 1)).1.2.2 (by decide) (by decide) (by decide) rfl
    (by decide) (by decide) (by decide)
  exact ⟨by decide, hA, hB, by rw [hC]⟩

end contextprovider
